import Mathlib

/-!
Verification of the Supernote `.note` decoder (`src/parsing.ts`).

The TypeScript source is shallowly embedded: a Node `Buffer` is a
`List Nat` of bytes, JavaScript objects used as string-keyed records are
association lists in insertion order, JavaScript numbers produced by
`parseInt`/`readUIntLE` are modelled as `Option Int` with `none` playing
the role of `NaN`, and functions that can throw return `Except JsErr`.
Text decoding of content blocks (`Buffer.toString`) is modelled bytewise
(`Char.ofNat`), which agrees with UTF-8 on the ASCII text the format uses;
in particular a non-ASCII byte never decodes to an ASCII character under
either reading, so pattern tests over the ASCII grammars coincide.
-/

namespace Supernote

/-- A Node `Buffer`: a sequence of bytes. -/
abbrev Bytes := List Nat

/-- Errors the decoder can raise: the explicit signature check, the
range errors raised by `Buffer.readUIntLE`, and type errors from using a
missing or non-string value where a string is required (for example
spreading a non-iterable, or calling `.matchAll` and `.split` on
`undefined`). -/
inductive JsErr where
  | signatureMismatch
  | rangeErr
  | typeErr
  deriving DecidableEq, Repr

/-- Equality on fallible results is decidable (used to evaluate the
model on concrete buffers). -/
instance {e a : Type} [DecidableEq e] [DecidableEq a] : DecidableEq (Except e a) := fun x y =>
  match x, y with
  | .error u, .error v =>
    if h : u = v then isTrue (by rw [h]) else isFalse (fun hh => h (Except.error.inj hh))
  | .error _, .ok _ => isFalse Except.noConfusion
  | .ok _, .error _ => isFalse Except.noConfusion
  | .ok u, .ok v =>
    if h : u = v then isTrue (by rw [h]) else isFalse (fun hh => h (Except.ok.inj hh))

/-- The value type of `Record<string, string | string[]>`. -/
inductive Val where
  | str (s : String)
  | list (l : List String)
  deriving DecidableEq, Repr

/-- `Record<string, string | string[]>` in insertion order. -/
abbrev Rec := List (String × Val)

/-- `Record<string, string>` in insertion order. -/
abbrev StrRec := List (String × String)

/-- `Record<string, Record<string, string>>` in insertion order. -/
abbrev NestedRec := List (String × StrRec)

/-- Own-property lookup on a record (first entry with the key). -/
def recLookup (k : String) : List (String × α) → Option α
  | [] => none
  | (k2, v) :: rest => if k2 = k then some v else recLookup k rest

/-- JavaScript property assignment `obj[k] = v` on a plain record:
overwrite in place when the key is already present, else append. -/
def recSet (k : String) (v : α) : List (String × α) → List (String × α)
  | [] => [(k, v)]
  | (k2, v2) :: rest => if k2 = k then (k2, v) :: rest else (k2, v2) :: recSet k v rest

/-- The property names every plain `{}` object inherits from
`Object.prototype` in Node; `key in obj` is true for these even on an
empty object literal, and reading them on `{}` yields a non-string
(a function, or the prototype object itself for `__proto__`). -/
def objectProtoKeys : List String :=
  ["constructor", "hasOwnProperty", "isPrototypeOf", "propertyIsEnumerable",
   "toLocaleString", "toString", "valueOf", "__defineGetter__",
   "__defineSetter__", "__lookupGetter__", "__lookupSetter__", "__proto__"]

/-- The JavaScript `key in obj` test on a plain record object: own
properties plus the members inherited from `Object.prototype`. -/
def jsIn (k : String) (r : List (String × α)) : Bool :=
  (recLookup k r).isSome || decide (k ∈ objectProtoKeys)

/-- Bytewise text decoding of a content slice (see the module comment). -/
def bytesToString (b : Bytes) : String :=
  String.mk (b.map Char.ofNat)

/-- The bytes of an ASCII string (used to build concrete test buffers). -/
def strBytes (s : String) : Bytes :=
  s.data.map Char.toNat

/-- Unsigned little-endian value of a byte list: byte `i` has weight `256 ^ i`. -/
def leValue : Bytes → Nat
  | [] => 0
  | b :: rest => b + 256 * leValue rest

/-- The value `buffer.readUIntLE(address, byteLength)` would return when
its range checks pass. -/
def readUintLEval (buffer : Bytes) (address byteLength : Nat) : Nat :=
  leValue ((buffer.drop address).take byteLength)

/-- `buffer.readUIntLE(address, byteLength)`. Node validates that the
byte length is between 1 and 6 and that the read stays inside the
buffer, and throws `ERR_OUT_OF_RANGE` otherwise; a `NaN` address
(modelled as `none`) likewise fails the range validation. -/
def readUintLE (buffer : Bytes) (address : Option Int) (byteLength : Nat) :
    Except JsErr Nat :=
  match address with
  | none => .error .rangeErr
  | some a =>
    if 1 ≤ byteLength ∧ byteLength ≤ 6 ∧ 0 ≤ a ∧ a.toNat + byteLength ≤ buffer.length
    then .ok (readUintLEval buffer a.toNat byteLength)
    else .error .rangeErr

/-- `getContentAtAddress(buffer, address, byteLength)`: `null` for
address 0, otherwise the length-prefixed content slice.
`buffer.subarray(start, end)` clamps to the buffer, which
`List.drop`/`List.take` mirror. -/
def getContentAtAddress (buffer : Bytes) (address : Option Int) (byteLength : Nat) :
    Except JsErr (Option Bytes) :=
  if address = some 0 then .ok none
  else
    match readUintLE buffer address byteLength with
    | .error e => .error e
    | .ok blockLength =>
      match address with
      | none => .error .rangeErr
      | some a =>
        .ok (some ((buffer.drop (a.toNat + byteLength)).take blockLength))

/-- Whitespace skipped by `parseInt` (the ASCII part of `StrWhiteSpace`). -/
def jsWhite (c : Char) : Bool :=
  c = ' ' || c = '\t' || c = '\n' || c = '\x0d' || c = '\x0b' || c = '\x0c'

/-- Decimal value of a digit run. -/
def decDigitsVal (ds : List Char) : Nat :=
  ds.foldl (fun a c => a * 10 + (c.toNat - 48)) 0

/-- Hexadecimal value of a hex-digit run. -/
def hexDigitsVal (ds : List Char) : Nat :=
  ds.foldl (fun a c =>
    a * 16 + (if c.isDigit then c.toNat - 48 else (c.toLower.toNat - 97) + 10)) 0

/-- Hexadecimal digit test. -/
def isHexDigitChar (c : Char) : Bool :=
  c.isDigit || ('a' ≤ c && c ≤ 'f') || ('A' ≤ c && c ≤ 'F')

/-- Leading digit run of `parseInt` after the sign: radix 10, or radix 16
after a `0x`/`0X` head. `none` when no digit is found (`NaN`). -/
def parseIntDigits (cs : List Char) : Option Nat :=
  match cs with
  | '0' :: c :: rest =>
    if c = 'x' ∨ c = 'X' then
      match rest.takeWhile isHexDigitChar with
      | [] => none
      | ds => some (hexDigitsVal ds)
    else
      some (decDigitsVal (('0' :: c :: rest).takeWhile Char.isDigit))
  | cs =>
    match cs.takeWhile Char.isDigit with
    | [] => none
    | ds => some (decDigitsVal ds)

/-- JavaScript `parseInt(s)` with the radix argument omitted; `none` is
`NaN`. (Doubles lose precision beyond 2^53; the model is exact, which
agrees on every length the format can encode.) -/
def jsParseInt (s : String) : Option Int :=
  match s.data.dropWhile jsWhite with
  | '-' :: rest => (parseIntDigits rest).map (fun n => -(n : Int))
  | '+' :: rest => (parseIntDigits rest).map (fun n => (n : Int))
  | rest => (parseIntDigits rest).map (fun n => (n : Int))

/-- Joining with commas (JavaScript `Array.prototype.join(",")`). -/
def joinComma : List String → String
  | [] => ""
  | [s] => s
  | s :: rest => s ++ "," ++ joinComma rest

/-- JavaScript string coercion of a `string | string[]` value: arrays
stringify as their elements joined by commas. -/
def valToJsString : Val → String
  | .str s => s
  | .list l => joinComma l

/-- `(v as string) ?? d` followed by string coercion: the default for a
missing (`undefined`) value, the coerced value otherwise. -/
def valOrD (o : Option Val) (d : String) : String :=
  match o with
  | none => d
  | some v => valToJsString v

/-! ### The tagged-text grammar `<KEY:VALUE>` (`extractKeyValue`) -/

/-- A character of the key/value class `[^:<>]`. -/
def kvChar (c : Char) : Bool :=
  c ≠ ':' && c ≠ '<' && c ≠ '>'

/-- Attempt to match `([^:<>]+):([^:<>]+)>` directly after an opening
`<`; both character classes exclude their own terminators, so the greedy
regex match is the maximal run and needs no backtracking. Returns the
captured key and value and the remainder after the match. -/
def tryKV (rest : List Char) : Option (String × String × List Char) :=
  match rest.takeWhile kvChar, rest.drop (rest.takeWhile kvChar).length with
  | _ :: _, ':' :: r2 =>
    match r2.takeWhile kvChar, r2.drop (r2.takeWhile kvChar).length with
    | _ :: _, '>' :: r4 =>
      some (String.mk (rest.takeWhile kvChar), String.mk (r2.takeWhile kvChar), r4)
    | _, _ => none
  | _, _ => none

theorem tryKV_length {rest : List Char} {k v : String} {r : List Char}
    (h : tryKV rest = some (k, v, r)) : r.length < rest.length := by
  unfold tryKV at h
  split at h
  · rename_i key r2 heq1 heq2
    split at h
    · rename_i val r4 heq3 heq4
      simp only [Option.some.injEq, Prod.mk.injEq] at h
      obtain ⟨-, -, rfl⟩ := h
      have h2 : r2.length < rest.length := by
        have := congrArg List.length heq2
        simp [List.length_drop] at this
        omega
      have h4 : r4.length < r2.length := by
        have := congrArg List.length heq4
        simp [List.length_drop] at this
        omega
      omega
    · exact absurd h (by simp)
  · exact absurd h (by simp)

/-- The scan loop with an explicit step budget (each step consumes at
least one character, see `tryKV_length`, so a budget of the text length
is always enough; the budget keeps the recursion structural and the
function kernel-computable). -/
def scanKVAux : Nat → List Char → List (String × String)
  | 0, _ => []
  | _, [] => []
  | fuel + 1, c :: rest =>
    if c = '<' then
      match tryKV rest with
      | some (k, v, r) => (k, v) :: scanKVAux fuel r
      | none => scanKVAux fuel rest
    else scanKVAux fuel rest

/-- The budget is irrelevant as long as it covers the text length. -/
theorem scanKVAux_fuel (fuel1 : Nat) : ∀ (fuel2 : Nat) (cs : List Char),
    cs.length ≤ fuel1 → cs.length ≤ fuel2 → scanKVAux fuel1 cs = scanKVAux fuel2 cs := by
  induction fuel1 with
  | zero =>
    intro fuel2 cs h1 h2
    have : cs = [] := List.length_eq_zero.mp (Nat.le_zero.mp h1)
    subst this
    cases fuel2 <;> rfl
  | succ f ih =>
    intro fuel2 cs h1 h2
    cases cs with
    | nil => cases fuel2 <;> rfl
    | cons c rest =>
      cases fuel2 with
      | zero => exact absurd h2 (by simp)
      | succ g =>
        simp only [scanKVAux]
        have hrest : rest.length ≤ f := by simp at h1; omega
        have hrest2 : rest.length ≤ g := by simp at h2; omega
        split
        · cases htry : tryKV rest with
          | some kvr =>
            obtain ⟨k, v, r⟩ := kvr
            have hr := tryKV_length htry
            have he := ih g r (by omega) (by omega)
            simp [he]
          | none =>
            have he := ih g rest hrest hrest2
            simp [he]
        · exact ih g rest hrest hrest2

/-- All matches of `/<([^:<>]+):([^:<>]+)>/g` over the text, in
left-to-right order: at each position the engine attempts a match, emits
it and resumes after it on success, and advances one position on
failure. A match can only start at `<`. -/
def scanKV (cs : List Char) : List (String × String) :=
  scanKVAux cs.length cs

/-- One step of the `reduce` in `extractKeyValue`. The `key in acc` test
sees `Object.prototype` members even on the empty accumulator; for such
a key the read produces the inherited non-string member, and spreading
it in an array literal throws a `TypeError`. -/
def extractStep (acc : Rec) (kv : String × String) : Except JsErr Rec :=
  if jsIn kv.1 acc then
    match recLookup kv.1 acc with
    | some (.str s) => .ok (recSet kv.1 (.list [s, kv.2]) acc)
    | some (.list l) => .ok (recSet kv.1 (.list (l ++ [kv.2])) acc)
    | none => .error .typeErr
  else .ok (recSet kv.1 (.str kv.2) acc)

/-- The `reduce` over the match list, starting from `{}`. -/
def buildKV (acc : Rec) : List (String × String) → Except JsErr Rec
  | [] => .ok acc
  | kv :: rest =>
    match extractStep acc kv with
    | .ok acc2 => buildKV acc2 rest
    | .error e => .error e

/-- `extractKeyValue(content)`. -/
def extractKeyValue (content : String) : Except JsErr Rec :=
  buildKV [] (scanKV content.data)

/-- `parseKeyValue(buffer, address, byteLength)`: resolve the block and
extract its tagged text; `{}` when the address is 0. -/
def parseKeyValue (buffer : Bytes) (address : Option Int) (byteLength : Nat) :
    Except JsErr Rec :=
  match getContentAtAddress buffer address byteLength with
  | .error e => .error e
  | .ok none => .ok []
  | .ok (some content) => extractKeyValue (bytesToString content)

/-! ### Key grouping (`extractNestedKeyValue`) -/

/-- First position at which `pat` occurs as a prefix of a suffix of `cs`
(the JavaScript `String.indexOf` result; `none` is `-1`). The empty
pattern occurs at position 0. -/
def firstOccur (cs pat : List Char) : Option Nat :=
  match cs with
  | [] => if pat = [] then some 0 else none
  | _ :: rest =>
    if pat = cs.take pat.length then some 0
    else (firstOccur rest pat).map (· + 1)

/-- JavaScript `key.indexOf(delimiter)`; `none` models `-1`. -/
def jsIndexOf (key delim : String) : Option Nat :=
  firstOccur key.data delim.data

/-- JavaScript `key.startsWith(p)`. -/
def jsStartsWith (key p : String) : Bool :=
  decide (key.data.take p.data.length = p.data)

/-- The `for (const prefix of prefixes)` loop of `extractNestedKeyValue`:
the first list element the key starts with wins, and the sub-key is the
key with that many leading characters removed. `(none, none)` when no
element matches. -/
def firstGroupMatch (ps : List String) (key : String) : Option String × Option String :=
  match ps with
  | [] => (none, none)
  | p :: rest =>
    if jsStartsWith key p then (some p, some (String.mk (key.data.drop p.data.length)))
    else firstGroupMatch rest key

/-- The main/sub classification of one key: a delimiter split when the
delimiter occurs (`substring(0, idx)` and `substring(idx + 1)` — one
character past the occurrence index, regardless of the delimiter
length), and otherwise the first matching known group name. -/
def keyMainSub (delim : String) (ps : List String) (key : String) :
    Option String × Option String :=
  match jsIndexOf key delim with
  | some idx =>
    (some (String.mk (key.data.take idx)), some (String.mk (key.data.drop (idx + 1))))
  | none => firstGroupMatch ps key

/-- `data[main][sub] = value` / `data[main] = {[sub]: value}` guarded by
`main in data`. When `main` is only inherited from `Object.prototype`
the assignment mutates the inherited object, leaving the record of own
entries (the function result) unchanged. -/
def nestedInsert (data : NestedRec) (main sub value : String) : NestedRec :=
  match recLookup main data with
  | some grp => recSet main (recSet sub value grp) data
  | none =>
    if main ∈ objectProtoKeys then data
    else data ++ [(main, [(sub, value)])]

/-- One iteration of the `forEach` of `extractNestedKeyValue`: skip
list-valued entries, classify the key, and insert only when both parts
are truthy (defined and nonempty). -/
def nestedStep (delim : String) (ps : List String) (data : NestedRec) :
    String × Val → NestedRec
  | (_, .list _) => data
  | (k, .str v) =>
    match keyMainSub delim ps k with
    | (some main, some sub) =>
      if main ≠ "" ∧ sub ≠ "" then nestedInsert data main sub v else data
    | _ => data

/-- The `forEach` loop over the record entries. -/
def nestedGo (delim : String) (ps : List String) (data : NestedRec) :
    Rec → NestedRec
  | [] => data
  | e :: rest => nestedGo delim ps (nestedStep delim ps data e) rest

/-- `extractNestedKeyValue(record, delimiter, prefixes)`. -/
def extractNestedKeyValue (record : Rec) (delim : String) (ps : List String) :
    NestedRec :=
  nestedGo delim ps [] record

/-! ### The layer-info grammar (`extractLayerInfo`) -/

/-- A character of the brace-interior class (not `{` and not `}`). -/
def braceChar (c : Char) : Bool :=
  c ≠ '{' && c ≠ '}'

/-- Attempt to match `([^{}]+)}` directly after an opening brace (the
content capture of the pattern over braces). -/
def tryBrace (rest : List Char) : Option (String × List Char) :=
  match rest.takeWhile braceChar, rest.drop (rest.takeWhile braceChar).length with
  | _ :: _, '}' :: r2 => some (String.mk (rest.takeWhile braceChar), r2)
  | _, _ => none

theorem tryBrace_length {rest : List Char} {s : String} {r : List Char}
    (h : tryBrace rest = some (s, r)) : r.length < rest.length := by
  unfold tryBrace at h
  split at h
  · rename_i inner r2 heq1 heq2
    simp only [Option.some.injEq, Prod.mk.injEq] at h
    obtain ⟨-, rfl⟩ := h
    have := congrArg List.length heq2
    simp [List.length_drop] at this
    omega
  · exact absurd h (by simp)

/-- The brace-scan loop with an explicit step budget (sufficient by
`tryBrace_length`, as for `scanKVAux`). -/
def scanBracesAux : Nat → List Char → List String
  | 0, _ => []
  | _, [] => []
  | fuel + 1, c :: rest =>
    if c = '{' then
      match tryBrace rest with
      | some (s, r) => s :: scanBracesAux fuel r
      | none => scanBracesAux fuel rest
    else scanBracesAux fuel rest

/-- The budget is irrelevant as long as it covers the text length. -/
theorem scanBracesAux_fuel (fuel1 : Nat) : ∀ (fuel2 : Nat) (cs : List Char),
    cs.length ≤ fuel1 → cs.length ≤ fuel2 →
    scanBracesAux fuel1 cs = scanBracesAux fuel2 cs := by
  induction fuel1 with
  | zero =>
    intro fuel2 cs h1 h2
    have : cs = [] := List.length_eq_zero.mp (Nat.le_zero.mp h1)
    subst this
    cases fuel2 <;> rfl
  | succ f ih =>
    intro fuel2 cs h1 h2
    cases cs with
    | nil => cases fuel2 <;> rfl
    | cons c rest =>
      cases fuel2 with
      | zero => exact absurd h2 (by simp)
      | succ g =>
        simp only [scanBracesAux]
        have hrest : rest.length ≤ f := by simp at h1; omega
        have hrest2 : rest.length ≤ g := by simp at h2; omega
        split
        · cases htry : tryBrace rest with
          | some sr =>
            obtain ⟨sc, r⟩ := sr
            have hr := tryBrace_length htry
            have he := ih g r (by omega) (by omega)
            simp [he]
          | none =>
            have he := ih g rest hrest hrest2
            simp [he]
        · exact ih g rest hrest hrest2

/-- All matches of the brace pattern over the layer-info text, in order:
the captured interior of each brace-delimited group. -/
def scanBraces (cs : List Char) : List String :=
  scanBracesAux cs.length cs

/-- A character of the dictionary key class (excludes quote and brackets). -/
def dictKeyChar (c : Char) : Bool :=
  c ≠ '"' && c ≠ '[' && c ≠ '{' && c ≠ '}' && c ≠ ']'

/-- A character of the dictionary value class (also excludes commas). -/
def dictValChar (c : Char) : Bool :=
  dictKeyChar c && c ≠ ','

/-- Length bound for `takeWhile`. -/
theorem takeWhile_len_le (p : Char → Bool) (l : List Char) :
    (l.takeWhile p).length ≤ l.length := by
  induction l with
  | nil => simp
  | cons c cs ih =>
    simp only [List.takeWhile]
    cases p c <;> simp <;> omega

/-- The optionally consumed quote of `"?` after `#`: when the next
character is a quote the greedy branch consumes it, and the zero-width
branch can never succeed afterwards because the value class excludes the
quote. -/
def qSkip (r : List Char) : List Char :=
  if r.head? = some '"' then r.tail else r

theorem qSkip_len_le (r : List Char) : (qSkip r).length ≤ r.length := by
  unfold qSkip
  split
  · cases r <;> simp
  · exact Nat.le_refl _

/-- Attempt to match the tail of the dictionary pattern directly after
an opening quote: a nonempty key run, a closing quote, `#`, an optional
quote, and a nonempty value run. -/
def tryDict (rest : List Char) : Option (String × String × List Char) :=
  match rest.takeWhile dictKeyChar, rest.drop (rest.takeWhile dictKeyChar).length with
  | _ :: _, '"' :: '#' :: r2 =>
    match (qSkip r2).takeWhile dictValChar with
    | [] => none
    | c :: val => some (String.mk (rest.takeWhile dictKeyChar), String.mk (c :: val),
        (qSkip r2).drop (c :: val).length)
  | _, _ => none

theorem tryDict_length {rest : List Char} {k v : String} {r : List Char}
    (h : tryDict rest = some (k, v, r)) : r.length < rest.length := by
  unfold tryDict at h
  split at h
  · rename_i key r2 heq1 heq2
    split at h
    · exact absurd h (by simp)
    · rename_i c val heq3
      simp only [Option.some.injEq, Prod.mk.injEq] at h
      obtain ⟨-, -, rfl⟩ := h
      have hr2 : r2.length + 2 ≤ rest.length := by
        have := congrArg List.length heq2
        simp [List.length_drop] at this
        omega
      have hq : (qSkip r2).length ≤ r2.length := qSkip_len_le r2
      have hvle : (c :: val).length ≤ (qSkip r2).length := by
        rw [← heq3]
        exact takeWhile_len_le _ _
      simp only [List.length_drop, List.length_cons] at hvle ⊢
      omega
  · exact absurd h (by simp)

/-- The dictionary-scan loop with an explicit step budget (sufficient by
`tryDict_length`, as for `scanKVAux`). -/
def scanDictAux : Nat → List Char → List (String × String)
  | 0, _ => []
  | _, [] => []
  | fuel + 1, c :: rest =>
    if c = '"' then
      match tryDict rest with
      | some (k, v, r) => (k, v) :: scanDictAux fuel r
      | none => scanDictAux fuel rest
    else scanDictAux fuel rest

/-- The budget is irrelevant as long as it covers the text length. -/
theorem scanDictAux_fuel (fuel1 : Nat) : ∀ (fuel2 : Nat) (cs : List Char),
    cs.length ≤ fuel1 → cs.length ≤ fuel2 →
    scanDictAux fuel1 cs = scanDictAux fuel2 cs := by
  induction fuel1 with
  | zero =>
    intro fuel2 cs h1 h2
    have : cs = [] := List.length_eq_zero.mp (Nat.le_zero.mp h1)
    subst this
    cases fuel2 <;> rfl
  | succ f ih =>
    intro fuel2 cs h1 h2
    cases cs with
    | nil => cases fuel2 <;> rfl
    | cons c rest =>
      cases fuel2 with
      | zero => exact absurd h2 (by simp)
      | succ g =>
        simp only [scanDictAux]
        have hrest : rest.length ≤ f := by simp at h1; omega
        have hrest2 : rest.length ≤ g := by simp at h2; omega
        split
        · cases htry : tryDict rest with
          | some kvr =>
            obtain ⟨k, v, r⟩ := kvr
            have hr := tryDict_length htry
            have he := ih g r (by omega) (by omega)
            simp [he]
          | none =>
            have he := ih g rest hrest hrest2
            simp [he]
        · exact ih g rest hrest hrest2

/-- All matches of the dictionary pattern over one group interior, in
order. A match can only start at a quote; on failure the engine advances
one position. -/
def scanDict (cs : List Char) : List (String × String) :=
  scanDictAux cs.length cs

/-- One `acc[key] = value` step of the per-group `reduce`. Assigning
through the key `__proto__` on a plain object hits the inherited
accessor and, with a string right-hand side, changes nothing. -/
def dictStep (acc : StrRec) (kv : String × String) : StrRec :=
  if kv.1 = "__proto__" then acc else recSet kv.1 kv.2 acc

/-- The dictionary a group interior reduces to. -/
def groupDict (content : String) : StrRec :=
  (scanDict content.data).foldl dictStep []

/-- The record built for one layer (`ILayerInfo`). `layerId` is a
JavaScript number; `none` models the `NaN` that `parseInt` returns on a
non-numeric raw value. -/
structure LayerInfo where
  layerId : Option Int
  name : String
  isBackgroundLayer : Bool
  isAllowAdd : Bool
  isCurrentLayer : Bool
  isVisible : Bool
  isDeleted : Bool
  isAllowUp : Bool
  isAllowDown : Bool
  deriving DecidableEq, Repr

/-- Build one `ILayerInfo` from a group dictionary. -/
def mkLayerInfo (d : StrRec) : LayerInfo where
  layerId := jsParseInt ((recLookup "layerId" d).getD "0")
  name := (recLookup "name" d).getD "Main layer"
  isBackgroundLayer := recLookup "isBackgroundLayer" d == some "true"
  isAllowAdd := recLookup "isAllowAdd" d == some "true"
  isCurrentLayer := recLookup "isCurrentLayer" d == some "true"
  isVisible := recLookup "isVisible" d == some "true"
  isDeleted := recLookup "isDeleted" d == some "true"
  isAllowUp := recLookup "isAllowUp" d == some "true"
  isAllowDown := recLookup "isAllowDown" d == some "true"

/-- `extractLayerInfo(content)`: one record per brace group, in document
order. (The two `throw` statements guarding `match.groups` are
unreachable: both patterns always bind their named groups on a match.) -/
def extractLayerInfo (content : String) : List LayerInfo :=
  (scanBraces content.data).map (fun g => mkLayerInfo (groupDict g))

/-! ### Document assembly (`SupernoteX`) -/

/-- `this.addressSize` (set in the constructor). -/
def addressSize : Nat := 4

/-- `this.lengthFieldSize` (set in the constructor). -/
def lengthFieldSize : Nat := 4

/-- JavaScript object spread `{...defs, ...ov}`: every default key in
its original position, overridden when the override record has it, then
the new keys of the override record in their order. -/
def mergeRec (defs ov : List (String × α)) : List (String × α) :=
  defs.map (fun p => (p.1, (recLookup p.1 ov).getD p.2)) ++
    ov.filter (fun p => (recLookup p.1 defs).isNone)

/-- The signature test `/^noteSN_FILE_VER_\d?{8}/` (an eight-digit run
after the literal; no end anchor, and the tested text has exactly 24
characters). -/
def sigOk (s : String) : Bool :=
  decide (s.data.take 16 = "noteSN_FILE_VER_".data) &&
    decide (((s.data.drop 16).take 8).length = 8) &&
    ((s.data.drop 16).take 8).all Char.isDigit

/-- `_parseSignature`: decode the first 24 bytes and test the pattern;
a failure is the explicit signature error. -/
def parseSignature (buffer : Bytes) : Except JsErr String :=
  if sigOk (bytesToString (buffer.take 24))
  then .ok (bytesToString (buffer.take 24))
  else .error .signatureMismatch

/-- The footer default skeleton of `_parseFooter`. -/
def footerDefaults : NestedRec :=
  [("FILE", [("FEATURE", "24")]), ("COVER", [("0", "0")]), ("KEYWORD", []),
   ("TITLE", []), ("STYLE", []), ("PAGE", [])]

/-- Access one footer group; the default skeleton keeps every named
group present, so the fallback list is never consulted on records built
by `_parseFooter`. -/
def footerGroup (footer : NestedRec) (g : String) : StrRec :=
  (recLookup g footer).getD []

/-- `_parseFooter`: the last `addressSize` bytes hold the footer offset;
resolve it, extract tagged text, group it with delimiter `_` and known
group name `PAGE`, and overlay the result on the default skeleton.
(For buffers shorter than `addressSize` the clamped trailing chunk is
shorter than the read width in the source and in the model alike, so
both fail the range check.) -/
def parseFooter (buffer : Bytes) : Except JsErr NestedRec :=
  match readUintLE (buffer.drop (buffer.length - addressSize)) (some 0) addressSize with
  | .error e => .error e
  | .ok address =>
    match parseKeyValue buffer (some (address : Int)) lengthFieldSize with
    | .error e => .error e
    | .ok data =>
      .ok (mergeRec footerDefaults (extractNestedKeyValue data "_" ["PAGE"]))

/-- The header default skeleton of `_parseHeader`. -/
def headerDefaults : Rec :=
  [("MODULE_LABEL", .str "0"), ("FILE_TYPE", .str "0"),
   ("APPLY_EQUIPMENT", .str "0"), ("FINAL_OPERATION_PAGE", .str "0"),
   ("FINAL_OPERATION_LAYER", .str "0"), ("ORIGINAL_STYLE", .str "0"),
   ("ORIGINAL_STYLEMD5", .str "0"), ("DEVICE_DPI", .str "0"),
   ("SOFT_DPI", .str "0"), ("FILE_PARSE_TYPE", .str "0"),
   ("RATTA_ETMD", .str "0"), ("APP_VERSION", .str "0")]

/-- The header address of `_parseHeader`: `parseInt(footer.FILE.FEATURE)`
when that field is truthy (present and nonempty), else the literal 24. -/
def headerAddress (footer : NestedRec) : Option Int :=
  match recLookup "FEATURE" (footerGroup footer "FILE") with
  | some s => if s ≠ "" then jsParseInt s else some 24
  | none => some 24

/-- `_parseHeader`. -/
def parseHeader (buffer : Bytes) (footer : NestedRec) : Except JsErr Rec :=
  match parseKeyValue buffer (headerAddress footer) lengthFieldSize with
  | .error e => .error e
  | .ok data => .ok (mergeRec headerDefaults data)

/-- An `ILayer`: the scalar fields and the optional raw bitmap buffer. -/
structure Layer where
  fields : Rec
  bitmapBuffer : Option Bytes
  deriving DecidableEq, Repr

/-- The layer default skeleton of `_parseLayer`. -/
def layerDefaults : Rec :=
  [("LAYERTYPE", .str "NOTE"), ("LAYERPROTOCOL", .str "RATTA_RLE"),
   ("LAYERNAME", .str "MAINLAYER"), ("LAYERPATH", .str "0"),
   ("LAYERBITMAP", .str "0"), ("LAYERVECTORGRAPH", .str "0"),
   ("LAYERRECOGN", .str "0")]

/-- `_parseLayer`. -/
def parseLayer (buffer : Bytes) (address : Option Int) : Except JsErr Layer :=
  match parseKeyValue buffer address lengthFieldSize with
  | .error e => .error e
  | .ok data =>
    match getContentAtAddress buffer
        (jsParseInt (valOrD (recLookup "LAYERBITMAP" data) "0")) lengthFieldSize with
    | .error e => .error e
    | .ok bitmapBuffer => .ok { fields := mergeRec layerDefaults data, bitmapBuffer }

/-- Accumulating loop of `splitComma`. -/
def splitCommaAux : List Char → List Char → List String
  | [], acc => [String.mk acc.reverse]
  | c :: rest, acc =>
    if c = ',' then String.mk acc.reverse :: splitCommaAux rest []
    else splitCommaAux rest (c :: acc)

/-- JavaScript `s.split(",")`: the runs between commas, in order; the
empty string splits to `[""]`. -/
def splitComma (s : String) : List String :=
  splitCommaAux s.data []

/-- An `IPage`: the merged scalar record plus the structurally parsed
fields, which in the object literal override any same-named entries
coming from the spread data. -/
structure Page where
  fields : Rec
  MAINLAYER : Layer
  LAYER1 : Layer
  LAYER2 : Layer
  LAYER3 : Layer
  BGLAYER : Layer
  LAYERINFO : List LayerInfo
  LAYERSEQ : List String
  totalPathBuffer : Option Bytes
  deriving DecidableEq, Repr

/-- The page default skeleton of `_parsePages` (note that `LAYERINFO`
and `LAYERSEQ` are absent from it). -/
def pageDefaults : Rec :=
  [("PAGESTYLE", .str "0"), ("PAGESTYLEMD5", .str "0"),
   ("LAYERSWITCH", .str "0"), ("TOTALPATH", .str "0"),
   ("THUMBNAILTYPE", .str "0")]

/-- The body of the per-page map of `_parsePages`, after the page data
record has been extracted, in object-literal evaluation order: the five
layers, then `extractLayerInfo(data["LAYERINFO"] as string)` and
`(data["LAYERSEQ"] as string).split(",")` - both of which throw a
`TypeError` when the field is missing (`undefined` has no `matchAll` or
`split`) or holds an array - then the vector-path buffer. -/
def parsePageData (buffer : Bytes) (data : Rec) : Except JsErr Page :=
  match parseLayer buffer (jsParseInt (valOrD (recLookup "MAINLAYER" data) "0")) with
  | .error e => .error e
  | .ok mainL =>
    match parseLayer buffer (jsParseInt (valOrD (recLookup "LAYER1" data) "0")) with
    | .error e => .error e
    | .ok layer1 =>
      match parseLayer buffer (jsParseInt (valOrD (recLookup "LAYER2" data) "0")) with
      | .error e => .error e
      | .ok layer2 =>
        match parseLayer buffer (jsParseInt (valOrD (recLookup "LAYER3" data) "0")) with
        | .error e => .error e
        | .ok layer3 =>
          match parseLayer buffer (jsParseInt (valOrD (recLookup "BGLAYER" data) "0")) with
          | .error e => .error e
          | .ok bgLayer =>
            match recLookup "LAYERINFO" data with
            | some (.str li) =>
              match recLookup "LAYERSEQ" data with
              | some (.str ls) =>
                match getContentAtAddress buffer
                    (jsParseInt (valOrD (recLookup "TOTALPATH" data) "0"))
                    lengthFieldSize with
                | .error e => .error e
                | .ok totalPathBuffer =>
                  .ok { fields := mergeRec pageDefaults data,
                        MAINLAYER := mainL, LAYER1 := layer1, LAYER2 := layer2,
                        LAYER3 := layer3, BGLAYER := bgLayer,
                        LAYERINFO := extractLayerInfo li,
                        LAYERSEQ := splitComma ls,
                        totalPathBuffer }
              | _ => .error .typeErr
            | _ => .error .typeErr

/-- Insertion into a string-sorted list (code-point order; this agrees
with the UTF-16 code-unit order of the source on the basic plane). -/
def insertStr (x : String) : List String → List String
  | [] => [x]
  | y :: ys => if x ≤ y then x :: y :: ys else y :: insertStr x ys

/-- The plain-string `.sort()` applied to the page keys. -/
def sortStrs (l : List String) : List String :=
  l.foldr insertStr []

/-- The per-key loop of `_parsePages`. A key always resolves in the
`PAGE` group it was enumerated from; the empty-string fallback used when
it does not mirrors `parseInt(undefined) = NaN`, which the model also
maps to `none`. -/
def pagesGo (buffer : Bytes) (pageGroup : StrRec) :
    List String → Except JsErr (List Page)
  | [] => .ok []
  | k :: rest =>
    match parseKeyValue buffer (jsParseInt ((recLookup k pageGroup).getD ""))
        lengthFieldSize with
    | .error e => .error e
    | .ok data =>
      match parsePageData buffer data with
      | .error e => .error e
      | .ok p =>
        match pagesGo buffer pageGroup rest with
        | .error e => .error e
        | .ok ps => .ok (p :: ps)

/-- `_parsePages`: enumerate the footer `PAGE` keys, sort them as plain
strings, and map each to a parsed page. -/
def parsePages (buffer : Bytes) (footer : NestedRec) : Except JsErr (List Page) :=
  pagesGo buffer (footerGroup footer "PAGE")
    (sortStrs ((footerGroup footer "PAGE").map Prod.fst))

/-- An `ICover`. -/
structure Cover where
  bitmapBuffer : Option Bytes
  deriving DecidableEq, Repr

/-- The cover address of `_parseCover`: from `footer.COVER["0"] ??
footer.COVER["1"]` (`parseInt(undefined)` is `NaN` when both are
missing); the cover is set only when the address is truthy and
positive. -/
def coverAddress (footer : NestedRec) : Option Int :=
  match recLookup "0" (footerGroup footer "COVER") with
  | some s => jsParseInt s
  | none =>
    match recLookup "1" (footerGroup footer "COVER") with
    | some s => jsParseInt s
    | none => none

/-- `_parseCover` (see `coverAddress` for the address selection). -/
def parseCover (buffer : Bytes) (footer : NestedRec) : Except JsErr (Option Cover) :=
  match coverAddress footer with
  | some a =>
    if 0 < a then
      match getContentAtAddress buffer (some a) lengthFieldSize with
      | .error e => .error e
      | .ok bitmapBuffer => .ok (some { bitmapBuffer })
    else .ok none
  | none => .ok none

/-- An `IKeyword`. -/
structure Keyword where
  fields : Rec
  bitmapBuffer : Option Bytes
  deriving DecidableEq, Repr

/-- The literal entry the `IKeyword` object is built from. -/
def keywordDefaults : Rec :=
  [("KEYWORDSEQNO", .str "0"), ("KEYWORDPAGE", .str "1"),
   ("KEYWORDRECT", .list ["0", "0", "0", "0"]),
   ("KEYWORDRECTORI", .list ["0", "0", "0", "0"]),
   ("KEYWORDSITE", .str "0"), ("KEYWORDLEN", .str "0"),
   ("KEYWORD", .str "")]

/-- `_parseKeyword`: the tagged text at the address is extracted and its
`KEYWORDSITE` field resolves the bitmap, but the object literal spreads
no `data` - the entry carries the fixed defaults only. -/
def parseKeyword (buffer : Bytes) (address : Option Int) : Except JsErr Keyword :=
  match parseKeyValue buffer address lengthFieldSize with
  | .error e => .error e
  | .ok data =>
    match getContentAtAddress buffer
        (jsParseInt (valOrD (recLookup "KEYWORDSITE" data) "0")) lengthFieldSize with
    | .error e => .error e
    | .ok bitmapBuffer => .ok { fields := keywordDefaults, bitmapBuffer }

/-- An `ITitle`. -/
structure Title where
  fields : Rec
  bitmapBuffer : Option Bytes
  deriving DecidableEq, Repr

/-- The title default skeleton of `_parseTitle`. -/
def titleDefaults : Rec :=
  [("TITLESEQNO", .str "0"), ("TITLELEVEL", .str "1"),
   ("TITLERECT", .list ["0", "0", "0", "0"]),
   ("TITLERECTORI", .list ["0", "0", "0", "0"]),
   ("TITLEBITMAP", .str "0"), ("TITLEPROTOCOL", .str "RATTA_RLE"),
   ("TITLESTYLE", .str "1000254")]

/-- `_parseTitle`: like `_parseKeyword`, but the extracted data is
spread over the defaults. -/
def parseTitle (buffer : Bytes) (address : Option Int) : Except JsErr Title :=
  match parseKeyValue buffer address lengthFieldSize with
  | .error e => .error e
  | .ok data =>
    match getContentAtAddress buffer
        (jsParseInt (valOrD (recLookup "TITLEBITMAP" data) "0")) lengthFieldSize with
    | .error e => .error e
    | .ok bitmapBuffer => .ok { fields := mergeRec titleDefaults data, bitmapBuffer }

/-- `if (!(key in obj)) obj[key] = []`: create the own empty list unless
the `in` test already holds (possibly through the prototype). -/
def ensureGroup (key : String) (acc : List (String × List α)) :
    List (String × List α) :=
  if jsIn key acc then acc else acc ++ [(key, [])]

/-- The `forEach` of `_parseKeywords` over the footer `KEYWORD` entries.
The values of a grouped footer record are always single strings, so only
the string branch of the source is live. The `key in this.keywords`
guard sees inherited `Object.prototype` members: for such a key no own
list is created and the subsequent `.push` on the inherited non-array
throws, after the entry itself has been parsed. -/
def kwGo (buffer : Bytes) (acc : List (String × List Keyword)) :
    StrRec → Except JsErr (List (String × List Keyword))
  | [] => .ok acc
  | (key, value) :: rest =>
    match parseKeyword buffer (jsParseInt value) with
    | .error e => .error e
    | .ok kw =>
      match recLookup key (ensureGroup key acc) with
      | some l => kwGo buffer (recSet key (l ++ [kw]) (ensureGroup key acc)) rest
      | none => .error .typeErr

/-- `_parseKeywords`. -/
def parseKeywords (buffer : Bytes) (footer : NestedRec) :
    Except JsErr (List (String × List Keyword)) :=
  kwGo buffer [] (footerGroup footer "KEYWORD")

/-- The `forEach` of `_parseTitles`, identical in shape to `kwGo`. -/
def titleGo (buffer : Bytes) (acc : List (String × List Title)) :
    StrRec → Except JsErr (List (String × List Title))
  | [] => .ok acc
  | (key, value) :: rest =>
    match parseTitle buffer (jsParseInt value) with
    | .error e => .error e
    | .ok t =>
      match recLookup key (ensureGroup key acc) with
      | some l => titleGo buffer (recSet key (l ++ [t]) (ensureGroup key acc)) rest
      | none => .error .typeErr

/-- `_parseTitles`. -/
def parseTitles (buffer : Bytes) (footer : NestedRec) :
    Except JsErr (List (String × List Title)) :=
  titleGo buffer [] (footerGroup footer "TITLE")

/-- The fully populated document the constructor leaves behind on
success (the fixed configuration constants aside). -/
structure Doc where
  signature : String
  footer : NestedRec
  header : Rec
  pages : List Page
  cover : Option Cover
  keywords : List (String × List Keyword)
  titles : List (String × List Title)
  deriving DecidableEq, Repr

/-- `new SupernoteX(buffer)` / `_parseBuffer`: the stages run in source
order and the first failure aborts the whole decode; the constructed
object is observable only on success. -/
def parseSupernoteX (buffer : Bytes) : Except JsErr Doc :=
  match parseSignature buffer with
  | .error e => .error e
  | .ok signature =>
    match parseFooter buffer with
    | .error e => .error e
    | .ok footer =>
      match parseHeader buffer footer with
      | .error e => .error e
      | .ok header =>
        match parsePages buffer footer with
        | .error e => .error e
        | .ok pages =>
          match parseCover buffer footer with
          | .error e => .error e
          | .ok cover =>
            match parseKeywords buffer footer with
            | .error e => .error e
            | .ok keywords =>
              match parseTitles buffer footer with
              | .error e => .error e
              | .ok titles =>
                .ok { signature, footer, header, pages, cover, keywords, titles }

/-! ### Concrete buffers used by witnesses and counterexamples -/

/-- A minimal well-formed note file: signature, an empty header block at
offset 24, an empty footer block at offset 28, and the trailing footer
address. -/
def goodBuf : Bytes :=
  strBytes "noteSN_FILE_VER_20230101" ++ [0, 0, 0, 0] ++ [0, 0, 0, 0] ++ [28, 0, 0, 0]

/-- The document `goodBuf` decodes to. -/
def goodDoc : Doc where
  signature := "noteSN_FILE_VER_20230101"
  footer := mergeRec footerDefaults []
  header := mergeRec headerDefaults []
  pages := []
  cover := none
  keywords := []
  titles := []

/-- A buffer with a valid signature whose trailing footer pointer aims
far outside the buffer. -/
def c1buf : Bytes :=
  strBytes "noteSN_FILE_VER_20230101" ++ [255, 255, 255, 0]

/-- A buffer holding one keyword block `<KEYWORDPAGE:5>` at offset 4. -/
def c4buf : Bytes :=
  [0, 0, 0, 0] ++ [15, 0, 0, 0] ++ strBytes "<KEYWORDPAGE:5>"

/-- A buffer holding one title block `<TITLELEVEL:5>` at offset 4. -/
def c4tbuf : Bytes :=
  [0, 0, 0, 0] ++ [14, 0, 0, 0] ++ strBytes "<TITLELEVEL:5>"

/-- A well-signed buffer whose footer lists one page at offset 28, where
an empty tagged-text block sits - so the page record has no `LAYERINFO`. -/
def c5buf : Bytes :=
  strBytes "noteSN_FILE_VER_20230101" ++ [0, 0, 0, 0] ++ [0, 0, 0, 0] ++
    [10, 0, 0, 0] ++ strBytes "<PAGE1:28>" ++ [32, 0, 0, 0]

/-- A page record that does carry `LAYERINFO` and `LAYERSEQ` strings. -/
def c5pdata : Rec :=
  [("LAYERINFO", .str "x"), ("LAYERSEQ", .str "MAINLAYER")]

/-- The page `parsePageData [] c5pdata` produces. -/
def c5page : Page where
  fields := mergeRec pageDefaults c5pdata
  MAINLAYER := { fields := mergeRec layerDefaults [], bitmapBuffer := none }
  LAYER1 := { fields := mergeRec layerDefaults [], bitmapBuffer := none }
  LAYER2 := { fields := mergeRec layerDefaults [], bitmapBuffer := none }
  LAYER3 := { fields := mergeRec layerDefaults [], bitmapBuffer := none }
  BGLAYER := { fields := mergeRec layerDefaults [], bitmapBuffer := none }
  LAYERINFO := []
  LAYERSEQ := ["MAINLAYER"]
  totalPathBuffer := none

/-- The layer-info scenario text
`{"layerId"#"1","name"#"Background","isVisible"#"true"}`. -/
def lScenario : String :=
  "\x7b\"layerId\"#\"1\",\"name\"#\"Background\",\"isVisible\"#\"true\"\x7d"

/-- `readUIntLE` succeeds on an in-bounds read of a legal width. -/
theorem readUintLE_pos (buffer : Bytes) (a w : Nat) (hw1 : 1 ≤ w) (hw6 : w ≤ 6)
    (hb : a + w ≤ buffer.length) :
    readUintLE buffer (some (a : Int)) w = .ok (readUintLEval buffer a w) := by
  simp only [readUintLE, Int.toNat_natCast]
  rw [if_pos ⟨hw1, hw6, Int.natCast_nonneg a, hb⟩]

/-- `getContentAtAddress` on a nonzero in-bounds address of a legal
width yields the (clamped) content slice. -/
theorem getContent_pos (buffer : Bytes) (a w : Nat) (ha : a ≠ 0) (hw1 : 1 ≤ w)
    (hw6 : w ≤ 6) (hb : a + w ≤ buffer.length) :
    getContentAtAddress buffer (some (a : Int)) w =
      .ok (some ((buffer.drop (a + w)).take (readUintLEval buffer a w))) := by
  have hne : (some ((a : Int))) ≠ some (0 : Int) := by
    simp
    exact_mod_cast ha
  unfold getContentAtAddress
  rw [if_neg hne, readUintLE_pos buffer a w hw1 hw6 hb]
  simp

/-! ### Claim C2 -/

/-- Claim C2 (amended): `getContentAtAddress` returns absent for offset
0 whatever the width; and for a nonzero offset and a length-field width
between 1 and 6 (the widths the unsigned little-endian read accepts; the
program always passes 4) such that the length field and the decoded
content lie within the buffer, it returns exactly the `n` bytes
following the length field, `n` being the decoded field value. -/
theorem claim_C2_theorem (buffer : Bytes) (w0 a w : Nat)
    (ha : a ≠ 0) (hw1 : 1 ≤ w) (hw6 : w ≤ 6)
    (hb : a + w + readUintLEval buffer a w ≤ buffer.length) :
    getContentAtAddress buffer (some 0) w0 = .ok none ∧
    getContentAtAddress buffer (some (a : Int)) w =
      .ok (some ((buffer.drop (a + w)).take (readUintLEval buffer a w))) ∧
    ((buffer.drop (a + w)).take (readUintLEval buffer a w)).length =
      readUintLEval buffer a w := by
  refine ⟨by simp [getContentAtAddress], ?_, ?_⟩
  · exact getContent_pos buffer a w ha hw1 hw6 (by omega)
  · rw [List.length_take, List.length_drop]
    omega

/-- Claim C2 counterexample: with width 7 the length field (bytes 1-7 of
a 10-byte buffer) and the decoded content (0 bytes) lie within the
buffer, yet the resolve raises a range error instead of returning the
empty content. -/
theorem claim_C2_counterexample :
    readUintLEval (List.replicate 10 0) 1 7 = 0 ∧
    1 + 7 + readUintLEval (List.replicate 10 0) 1 7 ≤ (List.replicate 10 0).length ∧
    getContentAtAddress (List.replicate 10 0) (some 1) 7 = .error JsErr.rangeErr := by
  decide

/-- Claim C2 witness at a concrete in-bounds block. -/
theorem claim_C2_witness :
    getContentAtAddress [0, 2, 0, 0, 0, 10, 20] (some 0) 4 = .ok none ∧
    getContentAtAddress [0, 2, 0, 0, 0, 10, 20] (some 1) 4 = .ok (some [10, 20]) := by
  have h := claim_C2_theorem [0, 2, 0, 0, 0, 10, 20] 4 1 4
    (by decide) (by decide) (by decide) (by decide)
  exact ⟨h.1, h.2.1.trans (by decide)⟩

/-! ### Claim C9 -/

/-- Claim C9: for a nonzero offset whose `lengthFieldSize`-byte length
field fits in the buffer, the resolve never errors: it yields the
decoded-length slice, which - when the decoded length runs past the end
of the buffer - silently degrades to all bytes available after the
length field. -/
theorem claim_C9_theorem (buffer : Bytes) (a : Nat) (ha : a ≠ 0)
    (hb : a + lengthFieldSize ≤ buffer.length) :
    getContentAtAddress buffer (some (a : Int)) lengthFieldSize =
      .ok (some ((buffer.drop (a + lengthFieldSize)).take
        (readUintLEval buffer a lengthFieldSize))) ∧
    (buffer.length < a + lengthFieldSize + readUintLEval buffer a lengthFieldSize →
      (buffer.drop (a + lengthFieldSize)).take (readUintLEval buffer a lengthFieldSize) =
        buffer.drop (a + lengthFieldSize)) := by
  constructor
  · exact getContent_pos buffer a lengthFieldSize ha (by decide) (by decide) hb
  · intro hover
    apply List.take_of_length_le
    rw [List.length_drop]
    omega

/-- Claim C9 witness: the block at offset 2 declares 200 content bytes
but only 4 remain; the resolve returns those 4 bytes. -/
theorem claim_C9_witness :
    getContentAtAddress [0, 0, 200, 0, 0, 0, 7, 8, 9, 10] (some 2) lengthFieldSize =
      .ok (some [7, 8, 9, 10]) := by
  have h := claim_C9_theorem [0, 0, 200, 0, 0, 0, 7, 8, 9, 10] 2 (by decide) (by decide)
  exact h.1.trans (by decide)

/-! ### Claim C4 -/

/-- Claim C4 fails on keywords: the keyword block at offset 4 of `c4buf`
extracts to `KEYWORDPAGE = "5"`, yet the parsed entry carries the
default `"1"` - `_parseKeyword` never merges the extracted record -
while the analogous title block does override its default through the
spread in `_parseTitle`. -/
theorem claim_C4_theorem :
    extractKeyValue (bytesToString ((c4buf.drop 8).take 15)) =
      .ok [("KEYWORDPAGE", Val.str "5")] ∧
    parseKeyword c4buf (some 4) =
      .ok { fields := keywordDefaults, bitmapBuffer := none } ∧
    recLookup "KEYWORDPAGE" keywordDefaults = some (Val.str "1") ∧
    (parseTitle c4tbuf (some 4)).map (fun t => recLookup "TITLELEVEL" t.fields) =
      .ok (some (Val.str "5")) := by
  decide

/-! ### Claim C6 -/

/-- Claim C6: `extractLayerInfo` yields exactly one record per brace
group in document order; a group with no `layerId` gets 0, one with no
`name` gets "Main layer", and every boolean field is true exactly when
its raw dictionary value is the literal string "true" (hence false when
the field is absent). -/
theorem claim_C6_theorem (content : String) :
    (extractLayerInfo content).length = (scanBraces content.data).length ∧
    ∀ i (h1 : i < (extractLayerInfo content).length)
      (h2 : i < (scanBraces content.data).length),
      (recLookup "layerId" (groupDict (scanBraces content.data)[i]) = none →
        (extractLayerInfo content)[i].layerId = some 0) ∧
      (recLookup "name" (groupDict (scanBraces content.data)[i]) = none →
        (extractLayerInfo content)[i].name = "Main layer") ∧
      ((extractLayerInfo content)[i].isBackgroundLayer = true ↔
        recLookup "isBackgroundLayer" (groupDict (scanBraces content.data)[i]) =
          some "true") ∧
      ((extractLayerInfo content)[i].isAllowAdd = true ↔
        recLookup "isAllowAdd" (groupDict (scanBraces content.data)[i]) = some "true") ∧
      ((extractLayerInfo content)[i].isCurrentLayer = true ↔
        recLookup "isCurrentLayer" (groupDict (scanBraces content.data)[i]) =
          some "true") ∧
      ((extractLayerInfo content)[i].isVisible = true ↔
        recLookup "isVisible" (groupDict (scanBraces content.data)[i]) = some "true") ∧
      ((extractLayerInfo content)[i].isDeleted = true ↔
        recLookup "isDeleted" (groupDict (scanBraces content.data)[i]) = some "true") ∧
      ((extractLayerInfo content)[i].isAllowUp = true ↔
        recLookup "isAllowUp" (groupDict (scanBraces content.data)[i]) = some "true") ∧
      ((extractLayerInfo content)[i].isAllowDown = true ↔
        recLookup "isAllowDown" (groupDict (scanBraces content.data)[i]) = some "true") := by
  refine ⟨by simp [extractLayerInfo], ?_⟩
  intro i h1 h2
  have hg : (extractLayerInfo content)[i] =
      mkLayerInfo (groupDict (scanBraces content.data)[i]) := by
    simp [extractLayerInfo]
  rw [hg]
  refine ⟨fun h => ?_, fun h => ?_, ?_, ?_, ?_, ?_, ?_, ?_, ?_⟩
  · simp only [mkLayerInfo, h, Option.getD_none]
    decide
  · simp only [mkLayerInfo, h, Option.getD_none]
  all_goals simp [mkLayerInfo, beq_iff_eq]

/-- Claim C6 witness at the scenario text: one group, id 1, name
"Background", `isVisible` true, the other booleans false. -/
theorem claim_C6_witness :
    (extractLayerInfo lScenario).length = (scanBraces lScenario.data).length ∧
    ((extractLayerInfo lScenario).get ⟨0, by decide⟩).isVisible = true ∧
    ((extractLayerInfo lScenario).get ⟨0, by decide⟩).isBackgroundLayer = false ∧
    ((extractLayerInfo lScenario).get ⟨0, by decide⟩).isDeleted = false := by
  have h := claim_C6_theorem lScenario
  have hi := h.2 0 (by decide) (by decide)
  refine ⟨h.1, ?_, ?_, ?_⟩
  · exact hi.2.2.2.2.2.1.mpr (by decide)
  · by_contra hc
    have := hi.2.2.1.mp (by revert hc; decide)
    revert this
    decide
  · by_contra hc
    have := hi.2.2.2.2.2.2.1.mp (by revert hc; decide)
    revert this
    decide

/-! ### Helper lemmas on records and key grouping -/

theorem recLookup_mem {k : String} {v : α} {l : List (String × α)}
    (h : recLookup k l = some v) : (k, v) ∈ l := by
  induction l with
  | nil => simp [recLookup] at h
  | cons e rest ih =>
    obtain ⟨k2, v2⟩ := e
    by_cases hk : k2 = k
    · subst hk
      simp [recLookup] at h
      simp [h]
    · simp [recLookup, hk] at h
      simp [ih h]

theorem mem_recSet {g k : String} {m v : α} {l : List (String × α)}
    (h : (g, m) ∈ recSet k v l) : (g, m) = (k, v) ∨ (g, m) ∈ l := by
  induction l with
  | nil => simp [recSet] at h; simp [h]
  | cons e rest ih =>
    obtain ⟨k2, v2⟩ := e
    by_cases hk : k2 = k
    · subst hk
      simp [recSet] at h
      rcases h with ⟨h1, h2⟩ | h
      · subst h1; subst h2; simp
      · simp [h]
    · simp [recSet, hk] at h
      rcases h with ⟨h1, h2⟩ | h
      · subst h1; subst h2; simp
      · rcases ih h with h | h
        · simp [h]
        · simp [h]

theorem nestedGo_append (d : String) (ps : List String) (data : NestedRec)
    (l1 l2 : Rec) :
    nestedGo d ps data (l1 ++ l2) = nestedGo d ps (nestedGo d ps data l1) l2 := by
  induction l1 generalizing data with
  | nil => rfl
  | cons e rest ih => simp [nestedGo, ih]

/-- Entries whose step is a no-op do not affect the grouped output. -/
theorem extractNested_drop_entry (d : String) (ps : List String) (k : String)
    (v : Val) (r1 r2 : Rec) (h : ∀ data, nestedStep d ps data (k, v) = data) :
    extractNestedKeyValue (r1 ++ (k, v) :: r2) d ps =
      extractNestedKeyValue (r1 ++ r2) d ps := by
  unfold extractNestedKeyValue
  rw [nestedGo_append, nestedGo_append]
  simp [nestedGo, h]

theorem firstGroupMatch_none (ps : List String) (k : String)
    (h : ∀ q ∈ ps, jsStartsWith k q = false) : firstGroupMatch ps k = (none, none) := by
  induction ps with
  | nil => rfl
  | cons p rest ih =>
    have hp := h p (by simp)
    simp [firstGroupMatch, hp]
    exact ih (fun q hq => h q (by simp [hq]))

/-- The first matching known group name wins. -/
theorem firstGroupMatch_first (ps1 ps2 : List String) (k p : String)
    (h1 : ∀ q ∈ ps1, jsStartsWith k q = false) (hp : jsStartsWith k p = true) :
    firstGroupMatch (ps1 ++ p :: ps2) k =
      (some p, some (String.mk (k.data.drop p.data.length))) := by
  induction ps1 with
  | nil => simp [firstGroupMatch, hp]
  | cons q rest ih =>
    have hq := h1 q (by simp)
    simp [firstGroupMatch, hq]
    exact ih (fun q2 hq2 => h1 q2 (by simp [hq2]))

/-- A prefix match of the whole key: `firstOccur` finds a pattern that
heads the text at position 0. -/
theorem firstOccur_self_start (pre suf : List Char) :
    firstOccur (pre ++ suf) pre = some 0 := by
  cases h : pre ++ suf with
  | nil =>
    have hpre : pre = [] := by
      cases pre with
      | nil => rfl
      | cons a b => simp at h
    unfold firstOccur
    simp [hpre]
  | cons c rest =>
    unfold firstOccur
    rw [if_pos]
    rw [← h, List.take_left]

/-- Delimiter occurrences shorten to an empty part only when the
occurrence touches an end of the key; such keys step to nothing. -/
theorem nestedStep_drop_of_empty {d : String} {ps : List String} {k v : String}
    (h : ∀ main sub, keyMainSub d ps k = (some main, some sub) →
      main = "" ∨ sub = "") :
    ∀ data, nestedStep d ps data (k, Val.str v) = data := by
  intro data
  show (match keyMainSub d ps k with
    | (some main, some sub) =>
      if main ≠ "" ∧ sub ≠ "" then nestedInsert data main sub v else data
    | _ => data) = data
  cases hc : keyMainSub d ps k with
  | mk mo so =>
    cases mo with
    | none => rfl
    | some main =>
      cases so with
      | none => rfl
      | some sub =>
        rcases h main sub hc with h2 | h2 <;>
          simp [h2]

/-! ### Claim C7 -/

/-- Claim C7 (amended): `extractNestedKeyValue` processes only entries
whose value is a scalar string (list-valued entries are skipped); when
the delimiter occurs in a key the split is used and the known-group list
is never consulted - the group is the part before the first occurrence
and the sub-key is the key minus the group and one further character
(the remainder after the delimiter whenever the delimiter is one
character long, as in every call of the program); when the delimiter
does not occur the first known group the key starts with wins, in
caller-supplied order; keys matching neither rule contribute nothing to
the grouped output. -/
theorem claim_C7_theorem :
    (∀ (d : String) (ps : List String) (r1 r2 : Rec) (k : String) (vs : List String),
      extractNestedKeyValue (r1 ++ (k, Val.list vs) :: r2) d ps =
        extractNestedKeyValue (r1 ++ r2) d ps) ∧
    (∀ (d : String) (ps : List String) (k : String) (idx : Nat),
      jsIndexOf k d = some idx →
      keyMainSub d ps k =
        (some (String.mk (k.data.take idx)), some (String.mk (k.data.drop (idx + 1))))) ∧
    (∀ (d k p : String) (ps1 ps2 : List String),
      jsIndexOf k d = none → (∀ q ∈ ps1, jsStartsWith k q = false) →
      jsStartsWith k p = true →
      keyMainSub d (ps1 ++ p :: ps2) k =
        (some p, some (String.mk (k.data.drop p.data.length)))) ∧
    (∀ (d : String) (ps : List String) (r1 r2 : Rec) (k v : String),
      jsIndexOf k d = none → (∀ q ∈ ps, jsStartsWith k q = false) →
      extractNestedKeyValue (r1 ++ (k, Val.str v) :: r2) d ps =
        extractNestedKeyValue (r1 ++ r2) d ps) := by
  refine ⟨?_, ?_, ?_, ?_⟩
  · intro d ps r1 r2 k vs
    exact extractNested_drop_entry d ps k (Val.list vs) r1 r2 (fun _ => rfl)
  · intro d ps k idx h
    unfold keyMainSub
    rw [h]
  · intro d k p ps1 ps2 hno hps1 hp
    unfold keyMainSub
    rw [hno]
    exact firstGroupMatch_first ps1 ps2 k p hps1 hp
  · intro d ps r1 r2 k v hno hps
    apply extractNested_drop_entry
    apply nestedStep_drop_of_empty
    intro main sub hc
    unfold keyMainSub at hc
    rw [hno, firstGroupMatch_none ps k hps] at hc
    exact absurd hc (by simp)

/-- Claim C7 counterexample: with the two-character delimiter "ab" the
key "XabY" splits into group "X" and sub-key "bY" - the character "b"
of the delimiter leaks into the sub-key - where the claim promises the
remainder "Y". -/
theorem claim_C7_counterexample :
    extractNestedKeyValue [("XabY", Val.str "v")] "ab" [] = [("X", [("bY", "v")])] ∧
    extractNestedKeyValue [("XabY", Val.str "v")] "ab" [] ≠ [("X", [("Y", "v")])] := by
  decide

/-- Claim C7 witness: a skipped list entry, a delimiter split, a
first-match group classification, and a dropped unmatched key. -/
theorem claim_C7_witness :
    extractNestedKeyValue [("K", Val.list ["a"])] "_" [] =
      extractNestedKeyValue [] "_" [] ∧
    keyMainSub "_" [] "STYLE_NAME" = (some "STYLE", some "NAME") ∧
    keyMainSub "_" ["PA", "PAGE"] "PAGE1" = (some "PA", some "GE1") ∧
    extractNestedKeyValue [("ODD", Val.str "v")] "_" ["PAGE"] =
      extractNestedKeyValue [] "_" ["PAGE"] := by
  have h := claim_C7_theorem
  refine ⟨?_, ?_, ?_, ?_⟩
  · exact h.1 "_" [] [] [] "K" ["a"]
  · exact (h.2.1 "_" [] "STYLE_NAME" 5 (by decide)).trans (by decide)
  · exact (h.2.2.1 "_" "PAGE1" "PA" [] ["PAGE"] (by decide) (by decide)
      (by decide)).trans (by decide)
  · exact h.2.2.2 "_" ["PAGE"] [] [] "ODD" "v" (by decide) (by decide)

/-! ### Claim C10 -/

/-- Membership characterization of `nestedInsert` under truthy parts. -/
theorem mem_nestedInsert {data : NestedRec} {main sub v g : String} {m : StrRec}
    (h : (g, m) ∈ nestedInsert data main sub v) :
    (g, m) ∈ data ∨
    (g = main ∧ m = [(sub, v)]) ∨
    (g = main ∧ ∃ grp, recLookup main data = some grp ∧ m = recSet sub v grp) := by
  unfold nestedInsert at h
  split at h
  · rename_i grp hl
    rcases mem_recSet h with h2 | h2
    · right; right
      refine ⟨by injection h2, grp, hl, by injection h2⟩
    · left; exact h2
  · split at h
    · left; exact h
    · rcases List.mem_append.mp h with h2 | h2
      · left; exact h2
      · right; left
        simp at h2
        exact ⟨h2.1, h2.2⟩

/-- The no-empty-name invariant of the grouped output. -/
def noEmptyNames (data : NestedRec) : Prop :=
  ∀ g m, (g, m) ∈ data → g ≠ "" ∧ ∀ sk v, (sk, v) ∈ m → sk ≠ ""

theorem nestedStep_noEmpty {d : String} {ps : List String} {data : NestedRec}
    (e : String × Val) (h : noEmptyNames data) :
    noEmptyNames (nestedStep d ps data e) := by
  obtain ⟨k, val⟩ := e
  cases val with
  | list vs => exact h
  | str v =>
    show noEmptyNames (match keyMainSub d ps k with
      | (some main, some sub) =>
        if main ≠ "" ∧ sub ≠ "" then nestedInsert data main sub v else data
      | _ => data)
    split
    · rename_i main sub
      split
      · rename_i htruthy
        intro g m hm
        rcases mem_nestedInsert hm with h2 | ⟨h2, h3⟩ | ⟨h2, grp, h3, h4⟩
        · exact h g m h2
        · subst h2; subst h3
          refine ⟨htruthy.1, ?_⟩
          intro sk v2 hsk
          simp at hsk
          rw [hsk.1]
          exact htruthy.2
        · subst h2; subst h4
          have hg := h _ grp (recLookup_mem h3)
          refine ⟨hg.1, ?_⟩
          intro sk v2 hsk
          rcases mem_recSet hsk with h5 | h5
          · injection h5 with h6 h7
            rw [h6]
            exact htruthy.2
          · exact hg.2 sk v2 h5
      · exact h
    all_goals exact h

theorem nestedGo_noEmpty (d : String) (ps : List String) (record : Rec) :
    ∀ (data : NestedRec), noEmptyNames data → noEmptyNames (nestedGo d ps data record) := by
  induction record with
  | nil => intro data h; exact h
  | cons e rest ih =>
    intro data h
    exact ih (nestedStep d ps data e) (nestedStep_noEmpty e h)

/-- Claim C10 (amended): the grouped output never contains an empty
group name or an empty sub-key; a key that begins with the delimiter,
or whose first delimiter occurrence has nothing after its first
character, is dropped entirely; a key exactly equal to the first known
group name that matches it is dropped entirely (an earlier, shorter
matching name still wins and keeps the key); and a key containing the
delimiter is classified without ever consulting the known-group list. -/
theorem claim_C10_theorem :
    (∀ (record : Rec) (d : String) (ps : List String) (g : String) (m : StrRec),
      (g, m) ∈ extractNestedKeyValue record d ps →
        g ≠ "" ∧ ∀ sk v, (sk, v) ∈ m → sk ≠ "") ∧
    (∀ (d t v : String) (ps : List String) (r1 r2 : Rec),
      extractNestedKeyValue (r1 ++ (String.append d t, Val.str v) :: r2) d ps =
        extractNestedKeyValue (r1 ++ r2) d ps) ∧
    (∀ (d k v : String) (ps : List String) (idx : Nat) (r1 r2 : Rec),
      jsIndexOf k d = some idx → k.data.length ≤ idx + 1 →
      extractNestedKeyValue (r1 ++ (k, Val.str v) :: r2) d ps =
        extractNestedKeyValue (r1 ++ r2) d ps) ∧
    (∀ (d k v : String) (ps1 ps2 : List String) (r1 r2 : Rec),
      jsIndexOf k d = none → (∀ q ∈ ps1, jsStartsWith k q = false) →
      jsStartsWith k k = true →
      extractNestedKeyValue (r1 ++ (k, Val.str v) :: r2) d (ps1 ++ k :: ps2) =
        extractNestedKeyValue (r1 ++ r2) d (ps1 ++ k :: ps2)) ∧
    (∀ (d k : String) (ps : List String) (idx : Nat),
      jsIndexOf k d = some idx → keyMainSub d ps k = keyMainSub d [] k) := by
  refine ⟨?_, ?_, ?_, ?_, ?_⟩
  · intro record d ps g m hm
    exact nestedGo_noEmpty d ps record [] (by intro g2 m2 h2; simp at h2) g m hm
  · intro d t v ps r1 r2
    apply extractNested_drop_entry
    apply nestedStep_drop_of_empty
    intro main sub hc
    have hidx : jsIndexOf (String.append d t) d = some 0 := by
      unfold jsIndexOf
      have hdt : (String.append d t).data = d.data ++ t.data := rfl
      rw [hdt]
      exact firstOccur_self_start d.data t.data
    unfold keyMainSub at hc
    rw [hidx] at hc
    left
    injection hc with h1 h2
    injection h1 with h1
    subst h1
    rfl
  · intro d k v ps idx r1 r2 hidx hlen
    apply extractNested_drop_entry
    apply nestedStep_drop_of_empty
    intro main sub hc
    unfold keyMainSub at hc
    rw [hidx] at hc
    right
    injection hc with h1 h2
    injection h2 with h2
    subst h2
    exact congrArg String.mk (List.drop_eq_nil_of_le hlen)
  · intro d k v ps1 ps2 r1 r2 hno hps1 hself
    apply extractNested_drop_entry
    apply nestedStep_drop_of_empty
    intro main sub hc
    unfold keyMainSub at hc
    rw [hno, firstGroupMatch_first ps1 ps2 k k hps1 hself] at hc
    right
    injection hc with h1 h2
    injection h2 with h2
    subst h2
    exact congrArg String.mk (List.drop_eq_nil_of_le (Nat.le_refl _))
  · intro d k ps idx hidx
    unfold keyMainSub
    rw [hidx]

/-- Claim C10 counterexample: the key "PAGE" is exactly equal to the
known group name "PAGE", yet with the list `["PA", "PAGE"]` the earlier
name "PA" matches first and the key is kept as group "PA", sub-key "GE"
rather than dropped. -/
theorem claim_C10_counterexample :
    extractNestedKeyValue [("PAGE", Val.str "7")] "_" ["PA", "PAGE"] =
      [("PA", [("GE", "7")])] ∧
    extractNestedKeyValue [("PAGE", Val.str "7")] "_" ["PA", "PAGE"] ≠ [] := by
  decide

/-- Claim C10 witness: concrete instances of every conjunct. -/
theorem claim_C10_witness :
    (("STYLE", [("NAME", "x")]) ∈ extractNestedKeyValue [("STYLE_NAME", Val.str "x")] "_" [] →
      "STYLE" ≠ "" ∧ ∀ sk v, (sk, v) ∈ [("NAME", "x")] → sk ≠ "") ∧
    extractNestedKeyValue [(String.append "_" "A", Val.str "v")] "_" [] =
      extractNestedKeyValue [] "_" [] ∧
    extractNestedKeyValue [("A_", Val.str "v")] "_" [] =
      extractNestedKeyValue [] "_" [] ∧
    extractNestedKeyValue [("PAGE", Val.str "v")] "_" ([] ++ "PAGE" :: []) =
      extractNestedKeyValue [] "_" ([] ++ "PAGE" :: []) ∧
    keyMainSub "_" ["PAGE"] "STYLE_NAME" = keyMainSub "_" [] "STYLE_NAME" := by
  have h := claim_C10_theorem
  refine ⟨?_, ?_, ?_, ?_, ?_⟩
  · exact h.1 [("STYLE_NAME", Val.str "x")] "_" [] "STYLE" [("NAME", "x")]
  · exact h.2.1 "_" "A" "v" [] [] []
  · exact h.2.2.1 "_" "A_" "v" [] 1 [] [] (by decide) (by decide)
  · exact h.2.2.2.1 "_" "PAGE" "v" [] [] [] [] (by decide) (by decide) (by decide)
  · exact h.2.2.2.2 "_" "STYLE_NAME" ["PAGE"] 5 (by decide)

/-! ### Claim C3 -/

/-- The values the matches bind to one key, in document order. -/
def valuesOfKey (K : String) (ms : List (String × String)) : List String :=
  (ms.filter (fun p => p.1 == K)).map Prod.snd

/-- How a run of further values for one key combines with the value the
accumulator already holds. -/
def combineVals (o : Option Val) (vs : List String) : Option Val :=
  match o, vs with
  | o, [] => o
  | none, [v] => some (.str v)
  | none, vs => some (.list vs)
  | some (.str s0), vs => some (.list (s0 :: vs))
  | some (.list l0), vs => some (.list (l0 ++ vs))

theorem recLookup_recSet_self (k : String) (v : α) (l : List (String × α)) :
    recLookup k (recSet k v l) = some v := by
  induction l with
  | nil => simp [recSet, recLookup]
  | cons e rest ih =>
    obtain ⟨k2, v2⟩ := e
    by_cases hk : k2 = k
    · subst hk
      simp [recSet, recLookup]
    · simp [recSet, recLookup, hk, ih]

theorem recLookup_recSet_ne (k K : String) (v : α) (l : List (String × α))
    (h : K ≠ k) : recLookup K (recSet k v l) = recLookup K l := by
  have h2 : k ≠ K := fun hh => h hh.symm
  induction l with
  | nil => simp [recSet, recLookup, h2]
  | cons e rest ih =>
    obtain ⟨k2, v2⟩ := e
    by_cases hk : k2 = k
    · subst hk
      simp [recSet, recLookup, h2]
    · simp [recSet, recLookup, hk, ih]

/-- The invariant of the `reduce` of `extractKeyValue`: when no match
key is an inherited `Object.prototype` member the fold succeeds, and
each key of the result holds its values combined in document order. -/
theorem buildKV_ok (l : List (String × String)) (acc : Rec)
    (hl : ∀ p ∈ l, ¬ p.1 ∈ objectProtoKeys) :
    ∃ r, buildKV acc l = .ok r ∧
      ∀ K, recLookup K r = combineVals (recLookup K acc) (valuesOfKey K l) := by
  induction l generalizing acc with
  | nil =>
    refine ⟨acc, rfl, ?_⟩
    intro K
    simp [valuesOfKey, combineVals]
  | cons e rest ih =>
    obtain ⟨k, v⟩ := e
    have hk : ¬ k ∈ objectProtoKeys := hl (k, v) (by simp)
    have hrest : ∀ p ∈ rest, ¬ p.1 ∈ objectProtoKeys :=
      fun p hp => hl p (by simp [hp])
    cases hlk : recLookup k acc with
    | none =>
      have hstep : extractStep acc (k, v) = .ok (recSet k (.str v) acc) := by
        unfold extractStep jsIn
        simp [hlk, hk]
      obtain ⟨r, hr, hv⟩ := ih (recSet k (.str v) acc) hrest
      refine ⟨r, by simp [buildKV, hstep, hr], ?_⟩
      intro K
      rw [hv K]
      by_cases hK : K = k
      · subst hK
        rw [recLookup_recSet_self, hlk]
        have hvals : valuesOfKey K ((K, v) :: rest) = v :: valuesOfKey K rest := by
          simp [valuesOfKey]
        rw [hvals]
        cases hrv : valuesOfKey K rest <;> simp [combineVals]
      · rw [recLookup_recSet_ne k K _ _ hK]
        have h2 : k ≠ K := fun hh => hK hh.symm
        have hvals : valuesOfKey K ((k, v) :: rest) = valuesOfKey K rest := by
          simp [valuesOfKey, h2]
        rw [hvals]
    | some w =>
      cases w with
      | str s0 =>
        have hstep : extractStep acc (k, v) = .ok (recSet k (.list [s0, v]) acc) := by
          unfold extractStep jsIn
          simp [hlk]
        obtain ⟨r, hr, hv⟩ := ih (recSet k (.list [s0, v]) acc) hrest
        refine ⟨r, by simp [buildKV, hstep, hr], ?_⟩
        intro K
        rw [hv K]
        by_cases hK : K = k
        · subst hK
          rw [recLookup_recSet_self, hlk]
          have hvals : valuesOfKey K ((K, v) :: rest) = v :: valuesOfKey K rest := by
            simp [valuesOfKey]
          rw [hvals]
          cases hrv : valuesOfKey K rest <;> simp [combineVals]
        · rw [recLookup_recSet_ne k K _ _ hK]
          have h2 : k ≠ K := fun hh => hK hh.symm
          have hvals : valuesOfKey K ((k, v) :: rest) = valuesOfKey K rest := by
            simp [valuesOfKey, h2]
          rw [hvals]
      | list l0 =>
        have hstep : extractStep acc (k, v) = .ok (recSet k (.list (l0 ++ [v])) acc) := by
          unfold extractStep jsIn
          simp [hlk]
        obtain ⟨r, hr, hv⟩ := ih (recSet k (.list (l0 ++ [v])) acc) hrest
        refine ⟨r, by simp [buildKV, hstep, hr], ?_⟩
        intro K
        rw [hv K]
        by_cases hK : K = k
        · subst hK
          rw [recLookup_recSet_self, hlk]
          have hvals : valuesOfKey K ((K, v) :: rest) = v :: valuesOfKey K rest := by
            simp [valuesOfKey]
          rw [hvals]
          cases hrv : valuesOfKey K rest <;> simp [combineVals]
        · rw [recLookup_recSet_ne k K _ _ hK]
          have h2 : k ≠ K := fun hh => hK hh.symm
          have hvals : valuesOfKey K ((k, v) :: rest) = valuesOfKey K rest := by
            simp [valuesOfKey, h2]
          rw [hvals]

/-- Claim C3 (amended): over the matches of the tagged-text pattern, in
left-to-right order, and provided no matched key is a member of
`Object.prototype` (such as `toString` or `constructor` - for those the
`in` test already holds on the empty accumulator, the inherited
non-array member is read back, and spreading it throws a `TypeError`),
extraction succeeds and maps a key matched exactly once to its scalar
value, a key matched `m > 1` times to the ordered list of its `m` values
in document order, and an unmatched key to nothing. -/
theorem claim_C3_theorem (s K : String)
    (h : ∀ p ∈ scanKV s.data, ¬ p.1 ∈ objectProtoKeys) :
    ∃ r, extractKeyValue s = .ok r ∧
      recLookup K r =
        match valuesOfKey K (scanKV s.data) with
        | [] => none
        | [v] => some (Val.str v)
        | vs => some (Val.list vs) := by
  obtain ⟨r, hr, hv⟩ := buildKV_ok (scanKV s.data) [] h
  refine ⟨r, hr, ?_⟩
  rw [hv K]
  have : recLookup K ([] : Rec) = none := rfl
  rw [this]
  cases hvs : valuesOfKey K (scanKV s.data) with
  | nil => rfl
  | cons v vs => cases vs <;> rfl

/-- Claim C3 counterexample: the key `toString` matches exactly once in
`<toString:a>`, yet extraction throws a `TypeError` instead of yielding
the scalar "a". -/
theorem claim_C3_counterexample :
    scanKV "<toString:a>".data = [("toString", "a")] ∧
    extractKeyValue "<toString:a>" = .error JsErr.typeErr := by
  decide

/-- Claim C3 witness: a repeated key becomes the ordered two-element
list, a unique key stays scalar, an unmatched key is absent. -/
theorem claim_C3_witness :
    ∃ r, extractKeyValue "<A:1><B:2><A:3>" = .ok r ∧
      recLookup "A" r = some (Val.list ["1", "3"]) ∧
      recLookup "B" r = some (Val.str "2") ∧
      recLookup "C" r = none := by
  obtain ⟨rA, hrA, hA⟩ := claim_C3_theorem "<A:1><B:2><A:3>" "A" (by decide)
  obtain ⟨rB, hrB, hB⟩ := claim_C3_theorem "<A:1><B:2><A:3>" "B" (by decide)
  obtain ⟨rC, hrC, hC⟩ := claim_C3_theorem "<A:1><B:2><A:3>" "C" (by decide)
  have eB : rB = rA := by
    have h3 := hrA.symm.trans hrB
    injection h3 with h4
    exact h4.symm
  have eC : rC = rA := by
    have h3 := hrA.symm.trans hrC
    injection h3 with h4
    exact h4.symm
  rw [eB] at hB
  rw [eC] at hC
  refine ⟨rA, hrA, ?_, ?_, ?_⟩
  · exact hA.trans (by decide)
  · exact hB.trans (by decide)
  · exact hC.trans (by decide)

/-! ### Error-kind lemmas: every stage after the signature check fails
only with range or type errors, never with the signature error. -/

theorem readUintLE_err {b : Bytes} {a : Option Int} {w : Nat} {e : JsErr}
    (h : readUintLE b a w = .error e) : e = .rangeErr := by
  unfold readUintLE at h
  split at h
  · exact (Except.error.inj h).symm
  · split at h
    · exact absurd h (by simp)
    · exact (Except.error.inj h).symm

theorem getContent_err {b : Bytes} {a : Option Int} {w : Nat} {e : JsErr}
    (h : getContentAtAddress b a w = .error e) : e = .rangeErr := by
  unfold getContentAtAddress at h
  split at h
  · exact absurd h (by simp)
  · split at h
    · rename_i e2 heq
      obtain rfl := Except.error.inj h
      exact readUintLE_err heq
    · split at h
      · exact (Except.error.inj h).symm
      · exact absurd h (by simp)

theorem extractStep_err {acc : Rec} {kv : String × String} {e : JsErr}
    (h : extractStep acc kv = .error e) : e = .typeErr := by
  unfold extractStep at h
  split at h
  · split at h
    · exact absurd h (by simp)
    · exact absurd h (by simp)
    · exact (Except.error.inj h).symm
  · exact absurd h (by simp)

theorem buildKV_err {l : List (String × String)} {acc : Rec} {e : JsErr}
    (h : buildKV acc l = .error e) : e = .typeErr := by
  induction l generalizing acc with
  | nil => exact absurd h (by simp [buildKV])
  | cons kv rest ih =>
    unfold buildKV at h
    split at h
    · exact ih h
    · rename_i e2 heq
      obtain rfl := Except.error.inj h
      exact extractStep_err heq

theorem extractKeyValue_err {s : String} {e : JsErr}
    (h : extractKeyValue s = .error e) : e = .typeErr :=
  buildKV_err h

theorem parseKeyValue_err {b : Bytes} {a : Option Int} {w : Nat} {e : JsErr}
    (h : parseKeyValue b a w = .error e) : e = .rangeErr ∨ e = .typeErr := by
  unfold parseKeyValue at h
  split at h
  · rename_i e2 heq
    obtain rfl := Except.error.inj h
    exact Or.inl (getContent_err heq)
  · exact absurd h (by simp)
  · exact Or.inr (extractKeyValue_err h)

theorem parseFooter_err {b : Bytes} {e : JsErr}
    (h : parseFooter b = .error e) : e = .rangeErr ∨ e = .typeErr := by
  unfold parseFooter at h
  split at h
  · rename_i e2 heq
    obtain rfl := Except.error.inj h
    exact Or.inl (readUintLE_err heq)
  · split at h
    · rename_i e2 heq
      obtain rfl := Except.error.inj h
      exact parseKeyValue_err heq
    · exact absurd h (by simp)

theorem parseHeader_err {b : Bytes} {f : NestedRec} {e : JsErr}
    (h : parseHeader b f = .error e) : e = .rangeErr ∨ e = .typeErr := by
  unfold parseHeader at h
  split at h
  · rename_i e2 heq
    obtain rfl := Except.error.inj h
    exact parseKeyValue_err heq
  · exact absurd h (by simp)

theorem parseLayer_err {b : Bytes} {a : Option Int} {e : JsErr}
    (h : parseLayer b a = .error e) : e = .rangeErr ∨ e = .typeErr := by
  unfold parseLayer at h
  split at h
  · rename_i e2 heq
    obtain rfl := Except.error.inj h
    exact parseKeyValue_err heq
  · split at h
    · rename_i e2 heq
      obtain rfl := Except.error.inj h
      exact Or.inl (getContent_err heq)
    · exact absurd h (by simp)

theorem parsePageData_err {b : Bytes} {data : Rec} {e : JsErr}
    (h : parsePageData b data = .error e) : e = .rangeErr ∨ e = .typeErr := by
  unfold parsePageData at h
  repeat' split at h
  all_goals try exact Except.noConfusion h
  all_goals obtain rfl := Except.error.inj h
  all_goals
    first
      | exact Or.inr rfl
      | (rename_i heq
         first
           | exact parseLayer_err heq
           | exact Or.inl (getContent_err heq))

theorem pagesGo_err {b : Bytes} {grp : StrRec} {keys : List String} {e : JsErr}
    (h : pagesGo b grp keys = .error e) : e = .rangeErr ∨ e = .typeErr := by
  induction keys with
  | nil => exact absurd h (by simp [pagesGo])
  | cons k rest ih =>
    unfold pagesGo at h
    split at h
    · rename_i e2 heq
      obtain rfl := Except.error.inj h
      exact parseKeyValue_err heq
    · split at h
      · rename_i e2 heq
        obtain rfl := Except.error.inj h
        exact parsePageData_err heq
      · split at h
        · rename_i e2 heq
          obtain rfl := Except.error.inj h
          exact ih heq
        · exact absurd h (by simp)

theorem parsePages_err {b : Bytes} {f : NestedRec} {e : JsErr}
    (h : parsePages b f = .error e) : e = .rangeErr ∨ e = .typeErr :=
  pagesGo_err h

theorem parseCover_err {b : Bytes} {f : NestedRec} {e : JsErr}
    (h : parseCover b f = .error e) : e = .rangeErr ∨ e = .typeErr := by
  unfold parseCover at h
  repeat' split at h
  all_goals try exact Except.noConfusion h
  all_goals obtain rfl := Except.error.inj h
  all_goals
    rename_i heq
    exact Or.inl (getContent_err heq)

theorem parseKeyword_err {b : Bytes} {a : Option Int} {e : JsErr}
    (h : parseKeyword b a = .error e) : e = .rangeErr ∨ e = .typeErr := by
  unfold parseKeyword at h
  split at h
  · rename_i e2 heq
    obtain rfl := Except.error.inj h
    exact parseKeyValue_err heq
  · split at h
    · rename_i e2 heq
      obtain rfl := Except.error.inj h
      exact Or.inl (getContent_err heq)
    · exact absurd h (by simp)

theorem parseTitle_err {b : Bytes} {a : Option Int} {e : JsErr}
    (h : parseTitle b a = .error e) : e = .rangeErr ∨ e = .typeErr := by
  unfold parseTitle at h
  split at h
  · rename_i e2 heq
    obtain rfl := Except.error.inj h
    exact parseKeyValue_err heq
  · split at h
    · rename_i e2 heq
      obtain rfl := Except.error.inj h
      exact Or.inl (getContent_err heq)
    · exact absurd h (by simp)

theorem kwGo_err {b : Bytes} {entries : StrRec} {acc : List (String × List Keyword)}
    {e : JsErr} (h : kwGo b acc entries = .error e) : e = .rangeErr ∨ e = .typeErr := by
  induction entries generalizing acc with
  | nil => exact absurd h (by simp [kwGo])
  | cons kv rest ih =>
    obtain ⟨key, value⟩ := kv
    unfold kwGo at h
    split at h
    · rename_i e2 heq
      obtain rfl := Except.error.inj h
      exact parseKeyword_err heq
    · split at h
      · exact ih h
      · exact Or.inr (Except.error.inj h).symm

theorem titleGo_err {b : Bytes} {entries : StrRec} {acc : List (String × List Title)}
    {e : JsErr} (h : titleGo b acc entries = .error e) : e = .rangeErr ∨ e = .typeErr := by
  induction entries generalizing acc with
  | nil => exact absurd h (by simp [titleGo])
  | cons kv rest ih =>
    obtain ⟨key, value⟩ := kv
    unfold titleGo at h
    split at h
    · rename_i e2 heq
      obtain rfl := Except.error.inj h
      exact parseTitle_err heq
    · split at h
      · exact ih h
      · exact Or.inr (Except.error.inj h).symm

theorem parseKeywords_err {b : Bytes} {f : NestedRec} {e : JsErr}
    (h : parseKeywords b f = .error e) : e = .rangeErr ∨ e = .typeErr :=
  kwGo_err h

theorem parseTitles_err {b : Bytes} {f : NestedRec} {e : JsErr}
    (h : parseTitles b f = .error e) : e = .rangeErr ∨ e = .typeErr :=
  titleGo_err h

/-! ### Claim C5 -/

theorem recLookup_append (K : String) (l1 l2 : List (String × α)) :
    recLookup K (l1 ++ l2) =
      match recLookup K l1 with
      | some v => some v
      | none => recLookup K l2 := by
  induction l1 with
  | nil => simp [recLookup]
  | cons e rest ih =>
    obtain ⟨k2, v2⟩ := e
    by_cases hk : k2 = K
    · simp [recLookup, hk]
    · simp [recLookup, hk, ih]

theorem recLookup_mapOverride (defs ov : List (String × α)) (K : String) (v : α)
    (hd : recLookup K defs = some v) :
    recLookup K (defs.map (fun p => (p.1, (recLookup p.1 ov).getD p.2))) =
      some ((recLookup K ov).getD v) := by
  induction defs with
  | nil => simp [recLookup] at hd
  | cons e rest ih =>
    obtain ⟨k2, v2⟩ := e
    by_cases hk : k2 = K
    · subst hk
      simp [recLookup] at hd
      simp [recLookup, hd]
    · simp [recLookup, hk] at hd
      simp [recLookup, hk, ih hd]

/-- A key present among the defaults and absent from the overriding
record keeps its default after the spread. -/
theorem mergeRec_default (defs ov : List (String × α)) (K : String) (v : α)
    (hd : recLookup K defs = some v) (ho : recLookup K ov = none) :
    recLookup K (mergeRec defs ov) = some v := by
  unfold mergeRec
  rw [recLookup_append, recLookup_mapOverride defs ov K v hd, ho]
  rfl

/-- A successful page parse requires `LAYERINFO` and `LAYERSEQ` to be
present as scalar strings in the extracted page record. -/
theorem parsePageData_requires (b : Bytes) (data : Rec) (p : Page)
    (h : parsePageData b data = .ok p) :
    (∃ li, recLookup "LAYERINFO" data = some (Val.str li)) ∧
    (∃ ls, recLookup "LAYERSEQ" data = some (Val.str ls)) := by
  unfold parsePageData at h
  repeat' split at h
  all_goals try exact Except.noConfusion h
  exact ⟨⟨_, by assumption⟩, ⟨_, by assumption⟩⟩

/-- Claim C5 (amended): absent fields are default-filled where a default
exists - a footer group with no extracted key keeps its whole default
group (in particular `FILE.FEATURE = "24"`), header fields and the five
scalar page fields fall back per field - but the page fields `LAYERINFO`
and `LAYERSEQ` have no defaults: a page whose extracted record lacks
either (or holds it as a list) never parses, the decode aborting with a
type error instead. -/
theorem claim_C5_theorem :
    (∀ (nested : NestedRec) (g : String) (gd : StrRec),
      recLookup g footerDefaults = some gd → recLookup g nested = none →
      recLookup g (mergeRec footerDefaults nested) = some gd) ∧
    (∀ (data : Rec) (k : String) (dv : Val),
      recLookup k headerDefaults = some dv → recLookup k data = none →
      recLookup k (mergeRec headerDefaults data) = some dv) ∧
    (∀ (data : Rec) (k : String) (dv : Val),
      recLookup k pageDefaults = some dv → recLookup k data = none →
      recLookup k (mergeRec pageDefaults data) = some dv) ∧
    (∀ (b : Bytes) (data : Rec) (p : Page), parsePageData b data = .ok p →
      (∃ li, recLookup "LAYERINFO" data = some (Val.str li)) ∧
      (∃ ls, recLookup "LAYERSEQ" data = some (Val.str ls))) := by
  exact ⟨fun nested g gd hd ho => mergeRec_default _ nested g gd hd ho,
         fun data k dv hd ho => mergeRec_default _ data k dv hd ho,
         fun data k dv hd ho => mergeRec_default _ data k dv hd ho,
         parsePageData_requires⟩

/-- Claim C5 counterexample: in `c5buf` the single page block extracts
to the empty record - every field, `LAYERINFO` included, is absent - and
instead of default-filling, the whole decode aborts with a type error. -/
theorem claim_C5_counterexample :
    parseKeyValue c5buf (some 28) lengthFieldSize = .ok [] ∧
    parseSupernoteX c5buf = .error JsErr.typeErr := by
  decide

/-- Claim C5 witness: default-fill instances for a footer group, a
header field and a page field, and presence of `LAYERINFO` in a page
record that does parse. -/
theorem claim_C5_witness :
    recLookup "FILE" (mergeRec footerDefaults [("KEYWORD", [("A", "5")])]) =
      some [("FEATURE", "24")] ∧
    recLookup "DEVICE_DPI" (mergeRec headerDefaults [("FILE_TYPE", Val.str "9")]) =
      some (Val.str "0") ∧
    recLookup "PAGESTYLE" (mergeRec pageDefaults []) = some (Val.str "0") ∧
    (∃ li, recLookup "LAYERINFO" c5pdata = some (Val.str li)) := by
  have h := claim_C5_theorem
  refine ⟨?_, ?_, ?_, ?_⟩
  · exact h.1 [("KEYWORD", [("A", "5")])] "FILE" [("FEATURE", "24")]
      (by decide) (by decide)
  · exact h.2.1 [("FILE_TYPE", Val.str "9")] "DEVICE_DPI" (Val.str "0")
      (by decide) (by decide)
  · exact h.2.2.1 [] "PAGESTYLE" (Val.str "0") (by decide) (by decide)
  · exact (h.2.2.2 [] c5pdata c5page (by decide)).1

/-! ### Claim C8 -/

/-- On any failing decode, either the signature stage itself failed with
the returned error, or a later stage failed - and those fail only with
range or type errors. -/
theorem parseSupernote_err_cases {buffer : Bytes} {e : JsErr}
    (h : parseSupernoteX buffer = .error e) :
    parseSignature buffer = .error e ∨ (e = .rangeErr ∨ e = .typeErr) := by
  unfold parseSupernoteX at h
  repeat' split at h
  all_goals try exact Except.noConfusion h
  all_goals obtain rfl := Except.error.inj h
  all_goals rename_i heq
  all_goals
    first
      | exact Or.inl heq
      | exact Or.inr (parseFooter_err heq)
      | exact Or.inr (parseHeader_err heq)
      | exact Or.inr (parsePages_err heq)
      | exact Or.inr (parseCover_err heq)
      | exact Or.inr (parseKeywords_err heq)
      | exact Or.inr (parseTitles_err heq)

/-- Claim C8: the decode fails with the signature error exactly when the
first 24 bytes, read as text, fail the pattern - the literal
`noteSN_FILE_VER_` followed by eight digits; every later stage fails
only with range or type errors, and on a signature mismatch nothing
beyond the signature stage runs, so no document is produced. -/
theorem claim_C8_theorem (buffer : Bytes) :
    parseSupernoteX buffer = .error JsErr.signatureMismatch ↔
      sigOk (bytesToString (buffer.take 24)) = false := by
  constructor
  · intro h
    rcases parseSupernote_err_cases h with h1 | h1
    · unfold parseSignature at h1
      split at h1
      · exact absurd h1 (by simp)
      · rename_i hcond
        cases hs : sigOk (bytesToString (buffer.take 24)) with
        | false => rfl
        | true => exact absurd hs (by simpa using hcond)
    · rcases h1 with h1 | h1 <;> exact absurd h1 (by decide)
  · intro h
    have hps : parseSignature buffer = .error .signatureMismatch := by
      unfold parseSignature
      simp [h]
    unfold parseSupernoteX
    rw [hps]

/-! ### Claim C1 -/

/-- Claim C1 (amended): constructing a document is all-or-nothing - a
successful decode carries exactly the result of every stage (signature,
footer, header, pages, cover, keywords, titles), and a failure yields no
document at all - but `SignatureMismatch` is not the only escaping error
kind: out-of-range reads of the trusted offsets and type errors from
missing fields abort the decode as well. -/
theorem claim_C1_theorem (buffer : Bytes) (d : Doc)
    (h : parseSupernoteX buffer = .ok d) :
    parseSignature buffer = .ok d.signature ∧
    parseFooter buffer = .ok d.footer ∧
    parseHeader buffer d.footer = .ok d.header ∧
    parsePages buffer d.footer = .ok d.pages ∧
    parseCover buffer d.footer = .ok d.cover ∧
    parseKeywords buffer d.footer = .ok d.keywords ∧
    parseTitles buffer d.footer = .ok d.titles := by
  unfold parseSupernoteX at h
  repeat' split at h
  all_goals try exact Except.noConfusion h
  obtain rfl := Except.ok.inj h
  refine ⟨by assumption, by assumption, by assumption, by assumption,
    by assumption, by assumption, by assumption⟩

/-- Claim C1 counterexample: `c1buf` carries a valid signature, but its
trailing footer pointer aims outside the buffer; the decode aborts with
a range error - an error kind other than `SignatureMismatch` escapes to
the caller. -/
theorem claim_C1_counterexample :
    sigOk (bytesToString (c1buf.take 24)) = true ∧
    parseSupernoteX c1buf = .error JsErr.rangeErr ∧
    JsErr.rangeErr ≠ JsErr.signatureMismatch := by
  decide

/-- Claim C1 witness: the minimal well-formed buffer decodes to the
fully populated default document, and each stage reproduces the
corresponding field. -/
theorem claim_C1_witness :
    parseSupernoteX goodBuf = .ok goodDoc ∧
    parseSignature goodBuf = .ok goodDoc.signature ∧
    parseFooter goodBuf = .ok goodDoc.footer ∧
    parseHeader goodBuf goodDoc.footer = .ok goodDoc.header ∧
    parsePages goodBuf goodDoc.footer = .ok goodDoc.pages ∧
    parseCover goodBuf goodDoc.footer = .ok goodDoc.cover ∧
    parseKeywords goodBuf goodDoc.footer = .ok goodDoc.keywords ∧
    parseTitles goodBuf goodDoc.footer = .ok goodDoc.titles := by
  have h : parseSupernoteX goodBuf = .ok goodDoc := by decide
  exact ⟨h, claim_C1_theorem goodBuf goodDoc h⟩

end Supernote
